import Mathlib

/-
  Verification development for the RFP-to-Proposal backend.

  The two core functions of src/main.py are embedded shallowly:
    - extract_text_from_file : format-sniffing decoder with optional
      PDF / word-processing capabilities, embedded in an explicit
      exception monad (Except PyErr) where try/except is the pyTry
      combinator;
    - simple_proposal_generator : heuristic field extractor, with the
      five regular expressions of the source embedded as dedicated
      backtracking matchers that follow the Python re.search semantics
      (leftmost position first; alternatives, greedy quantifiers and
      optional groups backtrack in engine order; IGNORECASE is modelled
      as ASCII case folding).

  Python strings are modelled as List Char.  Unicode-sensitive
  primitives (str.lower, str.strip, str.splitlines, the regex classes
  backslash-s and backslash-w) are modelled at ASCII fidelity plus the
  documented Unicode whitespace and line-break sets; all claims are
  settled on inputs where this model agrees with CPython.
-/

set_option maxRecDepth 10000

namespace RfpCore

/-- Python strings are modelled as lists of characters. -/
abbrev Str := List Char

/-- Build a `Str` from a Lean string literal. -/
def str (s : String) : Str := s.data

/-- Whitespace characters of Python `str.strip` / `str.isspace` and of the
regex class backslash-s: ASCII whitespace, the separator controls, NEL,
NBSP and the Unicode space separators. -/
def pyIsSpace (c : Char) : Bool :=
  ([' ', '\t', '\n', '\r', '\x0b', '\x0c',
    '\x1c', '\x1d', '\x1e', '\x1f', '\x85', '\xa0',
    '\u1680', '\u2000', '\u2001', '\u2002', '\u2003', '\u2004', '\u2005',
    '\u2006', '\u2007', '\u2008', '\u2009', '\u200a',
    '\u2028', '\u2029', '\u202f', '\u205f', '\u3000'] : List Char).contains c

/-- Line-boundary characters of Python `str.splitlines`. -/
def isLineBreak (c : Char) : Bool :=
  (['\n', '\r', '\x0b', '\x0c', '\x1c', '\x1d', '\x1e',
    '\x85', '\u2028', '\u2029'] : List Char).contains c

/-- Split on line boundaries (a CRLF pair counts once), keeping a final
empty segment after a terminal boundary; always returns at least one
segment. -/
def splitBreaks : Str → List Str
  | [] => [[]]
  | ['\r'] => [[], []]
  | '\r' :: '\n' :: t2 => [] :: splitBreaks t2
  | '\r' :: c2 :: t2 => [] :: splitBreaks (c2 :: t2)
  | c :: t =>
    if isLineBreak c then
      [] :: splitBreaks t
    else
      match splitBreaks t with
      | [] => [[c]]
      | l :: ls => (c :: l) :: ls

/-- Does the string end in a line boundary? -/
def endsWithBreak (s : Str) : Bool :=
  match s.getLast? with
  | some c => isLineBreak c
  | none => false

/-- Python `str.splitlines`: split on line boundaries, a CRLF pair counts
once, and a terminal boundary produces no trailing empty line. -/
def pySplitlines (s : Str) : List Str :=
  match s with
  | [] => []
  | _ =>
    if endsWithBreak s then (splitBreaks s).dropLast else splitBreaks s

/-- Drop characters satisfying `p` from the end of the list. -/
def trimEnd (p : Char → Bool) (s : Str) : Str :=
  (s.reverse.dropWhile p).reverse

/-- Python `str.strip()` with no argument: remove leading and trailing
whitespace. -/
def pyStrip (s : Str) : Str :=
  trimEnd pyIsSpace (s.dropWhile pyIsSpace)

/-- Python `str.strip(chars)`: remove leading and trailing characters
drawn from `cs`. -/
def stripChars (cs : List Char) (s : Str) : Str :=
  trimEnd (fun c => cs.contains c) (s.dropWhile (fun c => cs.contains c))

/-- The punctuation set of `.strip(".:,;-")` in the source. -/
def punctChars : List Char := ['.', ':', ',', ';', '-']

/-- Python `"\n".join`. -/
def joinNL (xs : List Str) : Str := List.intercalate ['\n'] xs

/-- Python `" ".join`. -/
def joinSpace (xs : List Str) : Str := List.intercalate [' '] xs

/-- ASCII lower-casing of one character (model of `str.lower`). -/
def asciiLowerChar (c : Char) : Char :=
  if 'A' ≤ c && c ≤ 'Z' then Char.ofNat (c.toNat + 32) else c

/-- Model of Python `str.lower` (ASCII fidelity). -/
def pyLower (s : Str) : Str := s.map asciiLowerChar

/-- Naive substring test: does `pat` occur inside the second argument? -/
def containsSub (pat : Str) : Str → Bool
  | [] => decide (pat = [])
  | s@(_ :: t) => pat.isPrefixOf s || containsSub pat t

/-- ASCII letter test (the class `[A-Za-z]`). -/
def isAsciiAlpha (c : Char) : Bool :=
  ('a' ≤ c && c ≤ 'z') || ('A' ≤ c && c ≤ 'Z')

/-- ASCII digit test. -/
def isAsciiDigit (c : Char) : Bool := '0' ≤ c && c ≤ '9'

/-- The regex class backslash-w (ASCII model). -/
def isWordC (c : Char) : Bool := isAsciiAlpha c || isAsciiDigit c || c = '_'

/-- The regex class `[:\s]` used as label separator in the source. -/
def isSepCS (c : Char) : Bool := c = ':' || pyIsSpace c

/-- The due-date capture class: letters, digits, comma, hyphen, slash, space. -/
def isDateChar (c : Char) : Bool :=
  isAsciiAlpha c || isAsciiDigit c || ([',', '-', '/', ' '] : List Char).contains c

/-- The loose-client capture class `[\w&\-\s]`. -/
def isLooseChar (c : Char) : Bool :=
  isWordC c || c = '&' || c = '-' || pyIsSpace c

/-- Case-insensitive literal match at the head of `s` (IGNORECASE as
ASCII folding); returns the remainder on success. -/
def ciStrip : Str → Str → Option Str
  | [], s => some s
  | _, [] => none
  | c :: lit, d :: s =>
    if asciiLowerChar c = asciiLowerChar d then ciStrip lit s else none

/-- Backtracking loop of a greedy one-or-more character-class quantifier:
`n` is the number of class characters available at the head of `s`; try
consuming `n`, then `n - 1`, ..., then `1`, feeding the remainder to the
continuation `cap` (exactly the engine order for `X+` followed by `cap`). -/
def dropBacktrack (cap : Str → Option Str) (s : Str) : Nat → Option Str
  | 0 => none
  | j + 1 =>
    match cap (s.drop (j + 1)) with
    | some g => some g
    | none => dropBacktrack cap s j

/-- `[:\s]+` followed by the capture `cap`, greedy with backtracking. -/
def sepThenCap (cap : Str → Option Str) (s : Str) : Option Str :=
  dropBacktrack cap s ((s.takeWhile isSepCS).length)

/-- The capture `(.{2,maxLen})`: a greedy run of non-newline characters,
at least 2 long, truncated at `maxLen`. -/
def dotsCapture (maxLen : Nat) (rest : Str) : Option Str :=
  let m := rest.takeWhile (fun c => c ≠ '\n')
  if 2 ≤ m.length then some (m.take maxLen) else none

/-- The due-date capture: a greedy run of date-class characters, at least 4 long, truncated at 40. -/
def dateCapture (rest : Str) : Option Str :=
  let m := rest.takeWhile isDateChar
  if 4 ≤ m.length then some (m.take 40) else none

/-- `(?:lit1|lit2|...)[:\s]+(cap)` at one position: alternatives are
tried in listed order, and on failure of the tail the next alternative
is tried at the same position. -/
def altCapture (alts : List Str) (cap : Str → Option Str) (s : Str) : Option Str :=
  match alts with
  | [] => none
  | a :: rest =>
    match ciStrip a s with
    | some r =>
      match sepThenCap cap r with
      | some g => some g
      | none => altCapture rest cap s
    | none => altCapture rest cap s

/-- `re.search`: try the position matcher at every suffix, leftmost
first. -/
def reSearch (matchAt : Str → Option Str) : Str → Option Str
  | [] => matchAt []
  | s@(_ :: t) =>
    match matchAt s with
    | some g => some g
    | none => reSearch matchAt t

/-- Alternatives of the first client pattern. -/
def clientAlts : List Str := [str "client", str "agency", str "organization", str "company"]

/-- Alternatives of the project pattern. -/
def projAlts : List Str := [str "project", str "rfp title", str "subject"]

/-- Position matcher of `(?:client|agency|organization|company)[:\s]+(.{2,80})`. -/
def matchClient1At (s : Str) : Option Str := altCapture clientAlts (dotsCapture 80) s

/-- Position matcher of `(?:project|rfp title|subject)[:\s]+(.{2,120})`. -/
def matchProjAt (s : Str) : Option Str := altCapture projAlts (dotsCapture 120) s

/-- `([A-Z][\w&\-\s]{2,60})` under IGNORECASE: a letter followed by a
greedy run of 2 to 60 loose-class characters. -/
def looseCapture (s : Str) : Option Str :=
  match s with
  | [] => none
  | c :: rest =>
    if isAsciiAlpha c then
      let m := rest.takeWhile isLooseChar
      if 2 ≤ m.length then some (c :: m.take 60) else none
    else none

/-- `(?:the\s+)?(capture)`: the greedy optional group is tried with the
literal first, and without it when the tail fails. -/
def theThenCap (s : Str) : Option Str :=
  (match ciStrip (str "the") s with
   | some r => dropBacktrack looseCapture r ((r.takeWhile pyIsSpace).length)
   | none => none).orElse (fun _ => looseCapture s)

/-- Position matcher of `\bfor\s+(?:the\s+)?([A-Z][\w&\-\s]{2,60})`;
`prev` is the character before the position (for the word boundary, whose
following character is always the word character f). -/
def matchForAt (prev : Option Char) (s : Str) : Option Str :=
  let wordBefore := match prev with | some c => isWordC c | none => false
  if wordBefore then none
  else
    match ciStrip (str "for") s with
    | none => none
    | some r => dropBacktrack theThenCap r ((r.takeWhile pyIsSpace).length)

/-- `re.search` for the loose client pattern, carrying the previous
character for the word-boundary test. -/
def searchFor (prev : Option Char) : Str → Option Str
  | [] => matchForAt prev []
  | s@(c :: t) =>
    match matchForAt prev s with
    | some g => some g
    | none => searchFor (some c) t

/-- A case-insensitive literal followed by `[:\s]+` and the date-class
capture (the common tail of the two due-date patterns). -/
def litSepDate (lit : Str) (r : Str) : Option Str :=
  match ciStrip lit r with
  | none => none
  | some r2 => sepThenCap dateCapture r2

/-- `\s+` (greedy, backtracking) followed by `date[:\s]+(capture)`. -/
def wsThenDate (r : Str) : Option Str :=
  dropBacktrack (litSepDate (str "date")) r ((r.takeWhile pyIsSpace).length)

/-- `\s+` (greedy, backtracking) followed by `due[:\s]+(capture)`. -/
def wsThenDue (r : Str) : Option Str :=
  dropBacktrack (litSepDate (str "due")) r ((r.takeWhile pyIsSpace).length)

/-- Position matcher of the first due-date pattern: due, whitespace, date, separators, date-class capture. -/
def matchDue1At (s : Str) : Option Str :=
  match ciStrip (str "due") s with
  | none => none
  | some r => wsThenDate r

/-- Position matcher of the second due-date pattern (proposal, optional s, whitespace, due, separators, date-class capture):
the greedy optional s is consumed first and given back on failure. -/
def matchDue2At (s : Str) : Option Str :=
  match ciStrip (str "proposal") s with
  | none => none
  | some r =>
    match r with
    | [] => wsThenDue r
    | c :: r2 =>
      if asciiLowerChar c = 's' then
        match wsThenDue r2 with
        | some g => some g
        | none => wsThenDue r
      else wsThenDue r

/-- The ordered client pattern list of the source (first match wins). -/
def clientPats : List (Str → Option Str) :=
  [reSearch matchClient1At, searchFor none]

/-- The ordered project pattern list of the source. -/
def projPats : List (Str → Option Str) :=
  [reSearch matchProjAt]

/-- The ordered due-date pattern list of the source. -/
def duePats : List (Str → Option Str) :=
  [reSearch matchDue1At, reSearch matchDue2At]

/-- The for-loop over a pattern list: run each search over the whole
buffer in order and keep the first group matched (break on success). -/
def firstMatch (pats : List (Str → Option Str)) (joined : Str) : Option Str :=
  match pats with
  | [] => none
  | p :: rest =>
    match p joined with
    | some g => some g
    | none => firstMatch rest joined

/-- A proposal section: a heading and its content. -/
structure Section where
  heading : Str
  content : Str
deriving DecidableEq

/-- The dictionary returned by `simple_proposal_generator`. -/
structure ProposalOut where
  title : Str
  summary : Str
  client_name : Option Str
  project_name : Option Str
  due_date : Option Str
  sections : List Section
deriving DecidableEq

/-- `lines = [l.strip() for l in text.splitlines() if l.strip()]`. -/
def linesOf (text : Str) : List Str :=
  ((pySplitlines text).map pyStrip).filter (fun l => decide (l ≠ []))

/-- `joined = "\n".join(lines)`. -/
def joinedOf (text : Str) : Str := joinNL (linesOf text)

/-- `title = lines[0][:120]` when lines is non-empty, else unset. -/
def titleCandOf (text : Str) : Option Str :=
  match linesOf text with
  | [] => none
  | l :: _ => some (l.take 120)

/-- The cleanup `m.group(1).strip().strip(".:,;-")` applied to client and
project captures. -/
def cleanCP (g : Str) : Str := stripChars punctChars (pyStrip g)

/-- The client field: first match over the two client patterns, cleaned. -/
def clientOf (text : Str) : Option Str :=
  (firstMatch clientPats (joinedOf text)).map cleanCP

/-- The project field: first match over the project pattern list, cleaned. -/
def projectOf (text : Str) : Option Str :=
  (firstMatch projPats (joinedOf text)).map cleanCP

/-- The due-date field: first match over the two due-date patterns, only
whitespace-stripped (`dd = m.group(1).strip()`). -/
def dueOf (text : Str) : Option Str :=
  (firstMatch duePats (joinedOf text)).map pyStrip

/-- Python truthiness-driven `a or b` on an optional string: `None` and
the empty string both fall through to the default. -/
def pyOr (o : Option Str) (d : Str) : Str :=
  match o with
  | none => d
  | some s => if s = [] then d else s

/-- Python `a or b` on two plain strings (empty is falsy). -/
def pyOrS (s d : Str) : Str := if s = [] then d else s

/-- The executive-summary template of the source, with the conditional
client interpolation and the project default. -/
def summaryTemplate (client project : Option Str) : Str :=
  str "This proposal responds to the RFP" ++
    (match client with
     | some s => if s = [] then [] else str " for " ++ s
     | none => []) ++
    str ". It outlines our understanding, approach, timeline, and pricing to deliver the " ++
    pyOr project (str "requested solution") ++ str "."

/-- `summary` as computed by the source. -/
def summaryOf (text : Str) : Str :=
  summaryTemplate (clientOf text) (projectOf text)

/-- `needs_excerpt = " ".join(lines[:20])[:800]`. -/
def excerptOf (text : Str) : Str :=
  (joinSpace ((linesOf text).take 20)).take 800

/-- The static fallback of the requirements section. -/
def fallbackNeeds : Str :=
  str "We have carefully reviewed the RFP and understand the objectives and constraints."

/-- The static content of the third section. -/
def approachContent : Str :=
  str "We will follow a phased approach: discovery, design, implementation, testing, and deployment, ensuring quality and transparency throughout."

/-- The static content of the fourth section. -/
def teamContent : Str :=
  str "Our experienced cross-functional team will lead strategy, design, engineering, QA, and project management."

/-- The static content of the fifth section. -/
def timelineContent : Str :=
  str "A detailed timeline will be finalized upon kickoff; typical delivery occurs in 8-12 weeks depending on scope."

/-- The static content of the sixth section. -/
def pricingContent : Str :=
  str "Pricing is based on scope and effort; a fixed bid or time-and-materials model can be provided upon clarification of requirements."

/-- The six sections assembled by the source, in order. -/
def sectionsOf (text : Str) : List Section :=
  [⟨str "Executive Summary", summaryOf text⟩,
   ⟨str "Understanding of Requirements", pyOrS (excerptOf text) fallbackNeeds⟩,
   ⟨str "Approach & Methodology", approachContent⟩,
   ⟨str "Project Team", teamContent⟩,
   ⟨str "Timeline", timelineContent⟩,
   ⟨str "Pricing", pricingContent⟩]

/-- `simple_proposal_generator` of src/main.py: the returned dictionary,
with `title = project or title or "Proposal"`. -/
def simple_proposal_generator (text : Str) : ProposalOut :=
  { title := pyOr (projectOf text) (pyOr (titleCandOf text) (str "Proposal")),
    summary := summaryOf text,
    client_name := clientOf text,
    project_name := projectOf text,
    due_date := dueOf text,
    sections := sectionsOf text }

/-- A Python exception crossing a boundary (opaque payload). -/
inductive PyErr where
  | exn : PyErr
deriving DecidableEq

/-- A try/except block: run the body; on an exception run the handler. -/
def pyTry {α : Type} (body : Except PyErr α) (handler : PyErr → Except PyErr α) :
    Except PyErr α :=
  match body with
  | .ok a => .ok a
  | .error e => handler e

/-- Uploaded binary content: a byte sequence. -/
abbrev Bytes := List Nat

/-- The optional PDF capability (PyPDF2 when importable): reading the
bytes either raises or yields the page list, where each page's
extract_text either raises or returns an optional string. -/
structure PdfCap where
  read : Bytes → Except PyErr (List (Except PyErr (Option Str)))

/-- The optional word-processing capability (python-docx when
importable): parsing either raises or yields the paragraph texts. -/
structure DocxCap where
  paragraphs : Bytes → Except PyErr (List Str)

/-- Continuation byte test for UTF-8. -/
def contByte (b : Nat) : Bool := 0x80 ≤ b && b ≤ 0xBF

/-- First-continuation range check for a three-byte lead. -/
def cont1ok3 (lead b : Nat) : Bool :=
  if lead = 0xE0 then 0xA0 ≤ b && b ≤ 0xBF
  else if lead = 0xED then 0x80 ≤ b && b ≤ 0x9F
  else contByte b

/-- First-continuation range check for a four-byte lead. -/
def cont1ok4 (lead b : Nat) : Bool :=
  if lead = 0xF0 then 0x90 ≤ b && b ≤ 0xBF
  else if lead = 0xF4 then 0x80 ≤ b && b ≤ 0x8F
  else contByte b

/-- The replacement character U+FFFD. -/
def replChar : Char := Char.ofNat 0xFFFD

/-- One UTF-8 decoding step with replacement: given a lead byte and the
following bytes, the decoded character (U+FFFD for a maximal ill-formed
subpart) and how many of the following bytes were consumed. -/
def utf8Step (b : Nat) (rest : Bytes) : Char × Nat :=
  if b < 0x80 then (Char.ofNat b, 0)
  else if 0xC2 ≤ b && b ≤ 0xDF then
    match rest with
    | b1 :: _ =>
      if contByte b1 then (Char.ofNat ((b - 0xC0) * 64 + (b1 - 0x80)), 1)
      else (replChar, 0)
    | [] => (replChar, 0)
  else if 0xE0 ≤ b && b ≤ 0xEF then
    match rest with
    | b1 :: b2 :: _ =>
      if cont1ok3 b b1 then
        if contByte b2 then
          (Char.ofNat ((b - 0xE0) * 4096 + (b1 - 0x80) * 64 + (b2 - 0x80)), 2)
        else (replChar, 1)
      else (replChar, 0)
    | [b1] => if cont1ok3 b b1 then (replChar, 1) else (replChar, 0)
    | [] => (replChar, 0)
  else if 0xF0 ≤ b && b ≤ 0xF4 then
    match rest with
    | b1 :: b2 :: b3 :: _ =>
      if cont1ok4 b b1 then
        if contByte b2 then
          if contByte b3 then
            (Char.ofNat ((b - 0xF0) * 262144 + (b1 - 0x80) * 4096 +
                (b2 - 0x80) * 64 + (b3 - 0x80)), 3)
          else (replChar, 2)
        else (replChar, 1)
      else (replChar, 0)
    | [b1, b2] =>
      if cont1ok4 b b1 then
        if contByte b2 then (replChar, 2) else (replChar, 1)
      else (replChar, 0)
    | [b1] => if cont1ok4 b b1 then (replChar, 1) else (replChar, 0)
    | [] => (replChar, 0)
  else (replChar, 0)

/-- Decoding worker: structural recursion on a fuel that bounds the
number of bytes left; each step consumes at least one byte, so a fuel
equal to the input length is never exhausted. -/
def decodeAux : Nat → Bytes → Str
  | _, [] => []
  | 0, _ :: _ => []
  | fuel + 1, b :: rest =>
    let step := utf8Step b rest
    step.1 :: decodeAux fuel (rest.drop step.2)

/-- `bytes.decode("utf-8", errors="replace")`: total UTF-8 decoding where
each maximal ill-formed subpart becomes one U+FFFD. -/
def decodeReplace (data : Bytes) : Str := decodeAux data.length data

/-- `upload.content_type or ""`. -/
def mimeOf (contentType : Option Str) : Str := contentType.getD []

/-- `(upload.filename or "").lower()`. -/
def nameOf (filename : Option Str) : Str := pyLower (filename.getD [])

/-- The plain-text dispatch test of the source. -/
def textCond (mimetype name : Str) : Bool :=
  (str "text/").isPrefixOf mimetype || (str ".txt").isSuffixOf name

/-- The PDF format test of the source. -/
def pdfCond (mimetype name : Str) : Bool :=
  decide (mimetype = str "application/pdf") || (str ".pdf").isSuffixOf name

/-- The word-processing format test of the source: the two media types,
or the OOXML extension. -/
def docxCond (mimetype name : Str) : Bool :=
  decide (mimetype = str "application/vnd.openxmlformats-officedocument.wordprocessingml.document") ||
    decide (mimetype = str "application/msword") ||
    (str ".docx").isSuffixOf name

/-- The page loop of the PDF branch: each page is processed inside its
own try/except, a raising page is skipped (continue) and a non-raising
page contributes `page.extract_text() or ""`. -/
def collectPages : List (Except PyErr (Option Str)) → List Str
  | [] => []
  | p :: rest =>
    match p with
    | .error _ => collectPages rest
    | .ok o => o.getD [] :: collectPages rest

/-- The PDF branch of the source: dispatch test including capability
presence, try/except around reading, and a result only when the
collected page list is non-empty (`if text:`). -/
def pdfAttempt (pdfCap : Option PdfCap) (mimetype name : Str) (data : Bytes) :
    Except PyErr (Option Str) :=
  if pdfCond mimetype name && pdfCap.isSome then
    match pdfCap with
    | none => .ok none
    | some cap =>
      pyTry
        (match cap.read data with
         | .error e => .error e
         | .ok pages =>
           let text := collectPages pages
           if text.isEmpty then .ok none else .ok (some (joinNL text)))
        (fun _ => .ok none)
  else .ok none

/-- The word-processing branch of the source: dispatch test including
capability presence and try/except around parsing; the paragraph texts
are joined with newlines. -/
def docxAttempt (docxCap : Option DocxCap) (mimetype name : Str) (data : Bytes) :
    Except PyErr (Option Str) :=
  if docxCond mimetype name && docxCap.isSome then
    match docxCap with
    | none => .ok none
    | some cap =>
      pyTry
        (match cap.paragraphs data with
         | .error e => .error e
         | .ok ps => .ok (some (joinNL ps)))
        (fun _ => .ok none)
  else .ok none

/-- The dispatch steps after the PDF rule: the word-processing rule,
then the fallback lossy decode (whose own try/except cannot fire, since
decoding with replacement is total). -/
def afterPdfSteps (docxCap : Option DocxCap) (mimetype name : Str) (data : Bytes) :
    Except PyErr Str :=
  match docxAttempt docxCap mimetype name data with
  | .error e => .error e
  | .ok (some s) => .ok s
  | .ok none => .ok (decodeReplace data)

/-- `extract_text_from_file` of src/main.py, in the exception monad: an
exception escaping any branch would surface as `.error`. -/
def extract_text_from_file (pdfCap : Option PdfCap) (docxCap : Option DocxCap)
    (contentType filename : Option Str) (data : Bytes) : Except PyErr Str :=
  let mimetype := mimeOf contentType
  let name := nameOf filename
  if textCond mimetype name then .ok (decodeReplace data)
  else
    match pdfAttempt pdfCap mimetype name data with
    | .error e => .error e
    | .ok (some s) => .ok s
    | .ok none => afterPdfSteps docxCap mimetype name data

/-! ### Facts about the matcher combinators -/

/-- Every group produced by the backtracking loop comes from the
continuation. -/
theorem dropBacktrack_some {P : Str → Prop} {cap : Str → Option Str}
    (h : ∀ s g, cap s = some g → P g) :
    ∀ (s : Str) (n : Nat) (g : Str), dropBacktrack cap s n = some g → P g := by
  intro s n
  induction n with
  | zero => intro g hg; simp [dropBacktrack] at hg
  | succ j ih =>
    intro g hg
    simp only [dropBacktrack] at hg
    cases hcap : cap (s.drop (j + 1)) with
    | none => rw [hcap] at hg; exact ih g hg
    | some g2 =>
      rw [hcap] at hg
      cases hg
      exact h _ _ hcap

/-- Every group produced by a separator-plus-capture comes from the
capture. -/
theorem sepThenCap_some {P : Str → Prop} {cap : Str → Option Str}
    (h : ∀ s g, cap s = some g → P g) :
    ∀ (s g : Str), sepThenCap cap s = some g → P g := by
  intro s g hg
  exact dropBacktrack_some h s _ g hg

/-- Every group produced by an alternation comes from the capture. -/
theorem altCapture_some {P : Str → Prop} {cap : Str → Option Str}
    (h : ∀ s g, cap s = some g → P g) :
    ∀ (alts : List Str) (s g : Str), altCapture alts cap s = some g → P g := by
  intro alts
  induction alts with
  | nil => intro s g hg; simp [altCapture] at hg
  | cons a rest ih =>
    intro s g hg
    simp only [altCapture] at hg
    split at hg
    · split at hg
      · rename_i g2 hsep
        cases hg
        exact sepThenCap_some h _ g hsep
      · exact ih s g hg
    · exact ih s g hg

/-- Every group found by the position scan comes from the position
matcher. -/
theorem reSearch_some {P : Str → Prop} {matchAt : Str → Option Str}
    (h : ∀ s g, matchAt s = some g → P g) :
    ∀ (s g : Str), reSearch matchAt s = some g → P g := by
  intro s
  induction s with
  | nil => intro g hg; rw [reSearch] at hg; exact h _ _ hg
  | cons c t ih =>
    intro g hg
    rw [reSearch] at hg
    cases hat : matchAt (c :: t) with
    | none => rw [hat] at hg; exact ih g hg
    | some g2 => rw [hat] at hg; cases hg; exact h _ _ hat

/-- Every group found by the boundary-carrying scan comes from the
position matcher at some previous-character context. -/
theorem searchFor_some {P : Str → Prop}
    (h : ∀ prev s g, matchForAt prev s = some g → P g) :
    ∀ (prev : Option Char) (s : Str) (g : Str), searchFor prev s = some g → P g := by
  intro prev s
  induction s generalizing prev with
  | nil => intro g hg; rw [searchFor] at hg; exact h _ _ _ hg
  | cons c t ih =>
    intro g hg
    rw [searchFor] at hg
    cases hat : matchForAt prev (c :: t) with
    | none => rw [hat] at hg; exact ih (some c) g hg
    | some g2 => rw [hat] at hg; cases hg; exact h _ _ _ hat

/-- A group matched by a one-pattern list comes from that pattern. -/
theorem firstMatch_one {p1 : Str → Option Str} {j g : Str}
    (hg : firstMatch [p1] j = some g) : p1 j = some g := by
  simp only [firstMatch] at hg
  cases h1 : p1 j with
  | none => rw [h1] at hg; simp [firstMatch] at hg
  | some g2 => rw [h1] at hg; exact hg

/-- A group matched by a two-pattern list comes from one of the two. -/
theorem firstMatch_two {p1 p2 : Str → Option Str} {j g : Str}
    (hg : firstMatch [p1, p2] j = some g) : p1 j = some g ∨ p2 j = some g := by
  simp only [firstMatch] at hg
  cases h1 : p1 j with
  | some g2 => rw [h1] at hg; exact Or.inl hg
  | none =>
    rw [h1] at hg
    cases h2 : p2 j with
    | some g2 => rw [h2] at hg; exact Or.inr hg
    | none => rw [h2] at hg; simp at hg

/-! ### Facts about the captures -/

/-- The free-text capture is bounded by its length range. -/
theorem dotsCapture_length {maxLen : Nat} {r g : Str}
    (hg : dotsCapture maxLen r = some g) : g.length ≤ maxLen := by
  simp only [dotsCapture] at hg
  split at hg
  · cases hg; exact List.length_take_le _ _
  · exact absurd hg (by simp)

/-- The free-text capture contains no newline: the dot class excludes it. -/
theorem dotsCapture_no_newline {maxLen : Nat} {r g : Str}
    (hg : dotsCapture maxLen r = some g) : ∀ c ∈ g, c ≠ '\n' := by
  simp only [dotsCapture] at hg
  split at hg
  · cases hg
    intro c hc
    have := List.mem_takeWhile_imp (List.mem_of_mem_take hc)
    exact of_decide_eq_true this
  · exact absurd hg (by simp)

/-- The date capture is bounded by its length range. -/
theorem dateCapture_length {r g : Str} (hg : dateCapture r = some g) :
    g.length ≤ 40 := by
  simp only [dateCapture] at hg
  split at hg
  · cases hg; exact List.length_take_le _ _
  · exact absurd hg (by simp)

/-- Every character of the date capture is in the date class. -/
theorem dateCapture_class {r g : Str} (hg : dateCapture r = some g) :
    ∀ c ∈ g, isDateChar c = true := by
  simp only [dateCapture] at hg
  split at hg
  · cases hg
    intro c hc
    exact List.mem_takeWhile_imp (List.mem_of_mem_take hc)
  · exact absurd hg (by simp)

/-- The loose-client capture is at most 61 characters long. -/
theorem looseCapture_length {s g : Str} (hg : looseCapture s = some g) :
    g.length ≤ 61 := by
  unfold looseCapture at hg
  cases s with
  | nil => simp at hg
  | cons c rest =>
    simp only at hg
    split at hg
    · split at hg
      · cases hg
        simp only [List.length_cons]
        have := List.length_take_le 60 (rest.takeWhile isLooseChar)
        omega
      · exact absurd hg (by simp)
    · exact absurd hg (by simp)

/-- The optional-the capture group is at most 61 characters long. -/
theorem theThenCap_length {s g : Str} (hg : theThenCap s = some g) :
    g.length ≤ 61 := by
  unfold theThenCap at hg
  rcases ho : (match ciStrip (str "the") s with
    | some r => dropBacktrack looseCapture r ((r.takeWhile pyIsSpace).length)
    | none => none) with _ | g2
  · rw [ho] at hg
    simp only [Option.orElse] at hg
    exact looseCapture_length hg
  · rw [ho] at hg
    simp only [Option.orElse] at hg
    cases hg
    split at ho
    · exact dropBacktrack_some (fun s g h => looseCapture_length h) _ _ g ho
    · exact absurd ho (by simp)

/-- The loose client pattern captures at most 61 characters. -/
theorem matchForAt_length {prev : Option Char} {s g : Str}
    (hg : matchForAt prev s = some g) : g.length ≤ 61 := by
  unfold matchForAt at hg
  simp only at hg
  split at hg
  · exact absurd hg (by simp)
  · split at hg
    · exact absurd hg (by simp)
    · exact dropBacktrack_some (fun s g h => theThenCap_length h) _ _ g hg

/-! ### Facts about stripping -/

/-- Trimming the end never lengthens a string. -/
theorem length_trimEnd_le (p : Char → Bool) (s : Str) :
    (trimEnd p s).length ≤ s.length := by
  unfold trimEnd
  rw [List.length_reverse]
  calc (s.reverse.dropWhile p).length ≤ s.reverse.length :=
        (List.dropWhile_sublist p).length_le
    _ = s.length := List.length_reverse s

/-- Membership in a trimmed string implies membership in the original. -/
theorem mem_trimEnd {p : Char → Bool} {s : Str} {c : Char}
    (h : c ∈ trimEnd p s) : c ∈ s := by
  unfold trimEnd at h
  exact List.mem_reverse.mp ((List.dropWhile_sublist p).mem (List.mem_reverse.mp h))

/-- `pyStrip` never lengthens a string. -/
theorem length_pyStrip_le (s : Str) : (pyStrip s).length ≤ s.length := by
  unfold pyStrip
  calc (trimEnd pyIsSpace (s.dropWhile pyIsSpace)).length
      ≤ (s.dropWhile pyIsSpace).length := length_trimEnd_le _ _
    _ ≤ s.length := (List.dropWhile_sublist pyIsSpace).length_le

/-- Membership after `pyStrip` implies membership before. -/
theorem mem_pyStrip {s : Str} {c : Char} (h : c ∈ pyStrip s) : c ∈ s :=
  (List.dropWhile_sublist pyIsSpace).mem (mem_trimEnd h)

/-- `stripChars` never lengthens a string. -/
theorem length_stripChars_le (cs : List Char) (s : Str) :
    (stripChars cs s).length ≤ s.length := by
  unfold stripChars
  calc (trimEnd (fun c => cs.contains c) (s.dropWhile (fun c => cs.contains c))).length
      ≤ (s.dropWhile (fun c => cs.contains c)).length := length_trimEnd_le _ _
    _ ≤ s.length := (List.dropWhile_sublist _).length_le

/-- Membership after `stripChars` implies membership before. -/
theorem mem_stripChars {cs : List Char} {s : Str} {c : Char}
    (h : c ∈ stripChars cs s) : c ∈ s :=
  (List.dropWhile_sublist _).mem (mem_trimEnd h)

/-- `dropWhile` is idempotent. -/
theorem dropWhile_idem (p : Char → Bool) (l : Str) :
    (l.dropWhile p).dropWhile p = l.dropWhile p := by
  induction l with
  | nil => rfl
  | cons c t ih =>
    by_cases hc : p c = true
    · rw [List.dropWhile_cons_of_pos hc]; exact ih
    · rw [List.dropWhile_cons_of_neg hc, List.dropWhile_cons_of_neg hc]

/-- A `trimEnd` result is a prefix of the original string. -/
theorem trimEnd_isPrefix (p : Char → Bool) (s : Str) :
    ∃ u, trimEnd p s ++ u = s := by
  unfold trimEnd
  have h := List.dropWhile_suffix (l := s.reverse) p
  obtain ⟨u, hu⟩ := h
  refine ⟨u.reverse, ?_⟩
  have := congrArg List.reverse hu
  rw [List.reverse_append, List.reverse_reverse] at this
  rw [this]

/-- A string untouched by `dropWhile` keeps that property under
`trimEnd`. -/
theorem dropWhile_trimEnd_of_dropWhile_eq {p : Char → Bool} {x : Str}
    (hx : x.dropWhile p = x) : (trimEnd p x).dropWhile p = trimEnd p x := by
  obtain ⟨u, hu⟩ := trimEnd_isPrefix p x
  cases hy : trimEnd p x with
  | nil => rfl
  | cons c t =>
    rw [hy] at hu
    have hcx : ∃ w, x = c :: w := ⟨t ++ u, by rw [← hu]; simp⟩
    obtain ⟨w, hw⟩ := hcx
    have hpc : p c = false := by
      by_contra hpc
      have hpc' : p c = true := by
        cases hval : p c
        · exact absurd hval hpc
        · rfl
      rw [hw, List.dropWhile_cons_of_pos hpc'] at hx
      have hlen := congrArg List.length hx
      have : (w.dropWhile p).length ≤ w.length := (List.dropWhile_sublist p).length_le
      simp only [List.length_cons] at hlen
      omega
    rw [List.dropWhile_cons_of_neg (by simp [hpc])]

/-- `trimEnd` is idempotent. -/
theorem trimEnd_idem (p : Char → Bool) (s : Str) :
    trimEnd p (trimEnd p s) = trimEnd p s := by
  unfold trimEnd
  rw [List.reverse_reverse, dropWhile_idem]

/-- The two-sided strip shape is idempotent. -/
theorem stripShape_idem (p : Char → Bool) (s : Str) :
    trimEnd p ((trimEnd p (s.dropWhile p)).dropWhile p) =
      trimEnd p (s.dropWhile p) := by
  rw [dropWhile_trimEnd_of_dropWhile_eq (dropWhile_idem p s), trimEnd_idem]

/-- `stripChars` is idempotent. -/
theorem stripChars_idem (cs : List Char) (s : Str) :
    stripChars cs (stripChars cs s) = stripChars cs s := by
  unfold stripChars
  exact stripShape_idem _ s

/-- `pyStrip` is idempotent. -/
theorem pyStrip_idem (s : Str) : pyStrip (pyStrip s) = pyStrip s := by
  unfold pyStrip
  exact stripShape_idem _ s

/-! ### Facts about the line splitting -/

/-- Every line kept by the filtering comprehension is non-empty. -/
theorem linesOf_head_ne_nil {text : Str} {l : Str} {rest : List Str}
    (h : linesOf text = l :: rest) : l ≠ [] := by
  have hmem : l ∈ linesOf text := by rw [h]; exact List.mem_cons_self l rest
  unfold linesOf at hmem
  have := List.of_mem_filter hmem
  exact of_decide_eq_true this

/-! ### Per-field facts -/

/-- Groups of the due-date tails come from the date capture. -/
theorem litSepDate_prop {P : Str → Prop} (hP : ∀ r g, dateCapture r = some g → P g)
    {lit r g : Str} (h : litSepDate lit r = some g) : P g := by
  unfold litSepDate at h
  split at h
  · exact absurd h (by simp)
  · exact sepThenCap_some hP _ g h

/-- Groups of the first due-date position matcher come from the date
capture. -/
theorem matchDue1At_prop {P : Str → Prop} (hP : ∀ r g, dateCapture r = some g → P g)
    {s g : Str} (h : matchDue1At s = some g) : P g := by
  unfold matchDue1At at h
  split at h
  · exact absurd h (by simp)
  · exact dropBacktrack_some (fun r2 g2 h2 => litSepDate_prop hP h2) _ _ g h

/-- Groups of the second due-date position matcher come from the date
capture. -/
theorem matchDue2At_prop {P : Str → Prop} (hP : ∀ r g, dateCapture r = some g → P g)
    {s g : Str} (h : matchDue2At s = some g) : P g := by
  have hws : ∀ (r2 : Str) (g2 : Str), wsThenDue r2 = some g2 → P g2 := by
    intro r2 g2 h2
    exact dropBacktrack_some (fun r3 g3 h3 => litSepDate_prop hP h3) _ _ g2 h2
  unfold matchDue2At at h
  split at h
  · exact absurd h (by simp)
  · split at h
    · exact hws _ g h
    · split at h
      · split at h
        · rename_i g2 hg2
          cases h
          exact hws _ g hg2
        · exact hws _ g h
      · exact hws _ g h

/-- Raw due-date groups satisfy any property of date captures. -/
theorem dueRaw_prop {P : Str → Prop} (hP : ∀ r g, dateCapture r = some g → P g)
    {j g : Str} (hg : firstMatch duePats j = some g) : P g := by
  simp only [duePats] at hg
  rcases firstMatch_two hg with h | h
  · exact reSearch_some (fun s g hh => matchDue1At_prop hP hh) j g h
  · exact reSearch_some (fun s g hh => matchDue2At_prop hP hh) j g h

/-- Raw client groups are at most 80 characters long. -/
theorem clientRaw_length {j g : Str} (hg : firstMatch clientPats j = some g) :
    g.length ≤ 80 := by
  simp only [clientPats] at hg
  rcases firstMatch_two hg with h | h
  · exact reSearch_some (P := fun g => g.length ≤ 80)
      (fun s g hh => altCapture_some (fun r g2 h2 => dotsCapture_length h2) clientAlts s g hh)
      j g h
  · have := searchFor_some (P := fun g => g.length ≤ 61)
      (fun prev s g hh => matchForAt_length hh) none j g h
    omega

/-- Raw project groups are at most 120 characters long. -/
theorem projRaw_length {j g : Str} (hg : firstMatch projPats j = some g) :
    g.length ≤ 120 := by
  simp only [projPats] at hg
  have h := firstMatch_one hg
  exact reSearch_some (P := fun g => g.length ≤ 120)
    (fun s g hh => altCapture_some (fun r g2 h2 => dotsCapture_length h2) projAlts s g hh)
    j g h

/-- Raw project groups contain no newline. -/
theorem projRaw_no_newline {j g : Str} (hg : firstMatch projPats j = some g) :
    ∀ c ∈ g, c ≠ '\n' := by
  simp only [projPats] at hg
  have h := firstMatch_one hg
  exact reSearch_some (P := fun g => ∀ c ∈ g, c ≠ '\n')
    (fun s g hh => altCapture_some (fun r g2 h2 => dotsCapture_no_newline h2) projAlts s g hh)
    j g h

/-- Raw due-date groups are at most 40 characters long. -/
theorem dueRaw_length {j g : Str} (hg : firstMatch duePats j = some g) :
    g.length ≤ 40 :=
  dueRaw_prop (fun r g2 h2 => dateCapture_length h2) hg

/-- Raw due-date groups stay inside the date class. -/
theorem dueRaw_class {j g : Str} (hg : firstMatch duePats j = some g) :
    ∀ c ∈ g, isDateChar c = true :=
  dueRaw_prop (fun r g2 h2 => dateCapture_class h2) hg

/-- Inversion of the client field. -/
theorem clientOf_inv {text : Str} {v : Str} (h : clientOf text = some v) :
    ∃ g, firstMatch clientPats (joinedOf text) = some g ∧
      v = stripChars punctChars (pyStrip g) := by
  unfold clientOf at h
  rcases Option.map_eq_some'.mp h with ⟨g, hg, hv⟩
  exact ⟨g, hg, hv.symm⟩

/-- Inversion of the project field. -/
theorem projectOf_inv {text : Str} {v : Str} (h : projectOf text = some v) :
    ∃ g, firstMatch projPats (joinedOf text) = some g ∧
      v = stripChars punctChars (pyStrip g) := by
  unfold projectOf at h
  rcases Option.map_eq_some'.mp h with ⟨g, hg, hv⟩
  exact ⟨g, hg, hv.symm⟩

/-- Inversion of the due-date field. -/
theorem dueOf_inv {text : Str} {v : Str} (h : dueOf text = some v) :
    ∃ g, firstMatch duePats (joinedOf text) = some g ∧ v = pyStrip g := by
  unfold dueOf at h
  rcases Option.map_eq_some'.mp h with ⟨g, hg, hv⟩
  exact ⟨g, hg, hv.symm⟩

/-- A present client value is at most 80 characters long. -/
theorem clientOf_length {text : Str} {v : Str} (h : clientOf text = some v) :
    v.length ≤ 80 := by
  rcases clientOf_inv h with ⟨g, hg, rfl⟩
  calc (stripChars punctChars (pyStrip g)).length
      ≤ (pyStrip g).length := length_stripChars_le _ _
    _ ≤ g.length := length_pyStrip_le _
    _ ≤ 80 := clientRaw_length hg

/-- A present project value is at most 120 characters long. -/
theorem projectOf_length {text : Str} {v : Str} (h : projectOf text = some v) :
    v.length ≤ 120 := by
  rcases projectOf_inv h with ⟨g, hg, rfl⟩
  calc (stripChars punctChars (pyStrip g)).length
      ≤ (pyStrip g).length := length_stripChars_le _ _
    _ ≤ g.length := length_pyStrip_le _
    _ ≤ 120 := projRaw_length hg

/-- A present due-date value is at most 40 characters long. -/
theorem dueOf_length {text : Str} {v : Str} (h : dueOf text = some v) :
    v.length ≤ 40 := by
  rcases dueOf_inv h with ⟨g, hg, rfl⟩
  calc (pyStrip g).length ≤ g.length := length_pyStrip_le _
    _ ≤ 40 := dueRaw_length hg

/-- A present project value contains no newline. -/
theorem projectOf_no_newline {text : Str} {v : Str} (h : projectOf text = some v) :
    ∀ c ∈ v, c ≠ '\n' := by
  rcases projectOf_inv h with ⟨g, hg, rfl⟩
  intro c hc
  exact projRaw_no_newline hg c (mem_pyStrip (mem_stripChars hc))

/-- A present due-date value contains no newline. -/
theorem dueOf_no_newline {text : Str} {v : Str} (h : dueOf text = some v) :
    ∀ c ∈ v, c ≠ '\n' := by
  rcases dueOf_inv h with ⟨g, hg, rfl⟩
  intro c hc
  have hclass := dueRaw_class hg c (mem_pyStrip hc)
  intro heq
  rw [heq] at hclass
  exact absurd hclass (by decide)

/-- A present title candidate is at most 120 characters long. -/
theorem titleCandOf_length {text : Str} {tl : Str} (h : titleCandOf text = some tl) :
    tl.length ≤ 120 := by
  unfold titleCandOf at h
  split at h
  · exact absurd h (by simp)
  · cases h; exact List.length_take_le _ _

/-! ### Claim theorems for the field extractor -/

/-- The sample input of the specification. -/
def t2Input : Str :=
  str "RFP Title\nClient: Acme Corp\nProject: Website Redesign\nDue Date: 2024-12-01\n..."

/-- C2 (counterexample): on the sample input the extracted project is not
"Website Redesign" — the rfp-title alternative already matches the first
line, with the newline as separator, capturing the following line. -/
theorem c2_cex :
    (simple_proposal_generator t2Input).project_name ≠ some (str "Website Redesign") := by
  decide

/-- C2 (amended): on the sample input the extractor returns
client "Acme Corp" and due date "2024-12-01" as claimed, but project and
title are "Client: Acme Corp", captured by the rfp-title alternative
matching the first line across the newline separator. -/
theorem c2_amended :
    (simple_proposal_generator t2Input).client_name = some (str "Acme Corp") ∧
    (simple_proposal_generator t2Input).project_name = some (str "Client: Acme Corp") ∧
    (simple_proposal_generator t2Input).due_date = some (str "2024-12-01") ∧
    (simple_proposal_generator t2Input).title = str "Client: Acme Corp" :=
  ⟨rfl, rfl, rfl, rfl⟩

/-- C3 (counterexample): the due-date value is not punctuation-stripped:
on this input it keeps its trailing hyphen, which the punctuation strip
would remove. -/
theorem c3_cex :
    (simple_proposal_generator (str "Due Date: 2024-12-01-")).due_date =
      some (str "2024-12-01-") ∧
    stripChars punctChars (str "2024-12-01-") ≠ str "2024-12-01-" :=
  ⟨rfl, by decide⟩

/-- C3 (amended): for every input, a present client or project value is
the first capturing-group match, whitespace-stripped and then
punctuation-stripped (hence a fixed point of the punctuation strip),
while a present due-date value is only whitespace-stripped (a fixed
point of the whitespace strip, but not in general of the punctuation
strip). -/
theorem c3_amended (text : Str) :
    (∀ v, (simple_proposal_generator text).client_name = some v →
      (∃ g, firstMatch clientPats (joinedOf text) = some g ∧
        v = stripChars punctChars (pyStrip g)) ∧
      stripChars punctChars v = v) ∧
    (∀ v, (simple_proposal_generator text).project_name = some v →
      (∃ g, firstMatch projPats (joinedOf text) = some g ∧
        v = stripChars punctChars (pyStrip g)) ∧
      stripChars punctChars v = v) ∧
    (∀ v, (simple_proposal_generator text).due_date = some v →
      (∃ g, firstMatch duePats (joinedOf text) = some g ∧ v = pyStrip g) ∧
      pyStrip v = v) := by
  refine ⟨fun v hv => ?_, fun v hv => ?_, fun v hv => ?_⟩
  · have h : clientOf text = some v := hv
    refine ⟨clientOf_inv h, ?_⟩
    rcases clientOf_inv h with ⟨g, hg, rfl⟩
    exact stripChars_idem punctChars (pyStrip g)
  · have h : projectOf text = some v := hv
    refine ⟨projectOf_inv h, ?_⟩
    rcases projectOf_inv h with ⟨g, hg, rfl⟩
    exact stripChars_idem punctChars (pyStrip g)
  · have h : dueOf text = some v := hv
    refine ⟨dueOf_inv h, ?_⟩
    rcases dueOf_inv h with ⟨g, hg, rfl⟩
    exact pyStrip_idem g

/-- C3 (witness): the amended claim applied to a concrete input on which
all three fields are present. -/
theorem c3_amended_witness :
    (simple_proposal_generator (str "Client: A.\nProject: B c\nDue Date: 2024-01-02")).due_date =
      some (str "2024-01-02") ∧
    pyStrip (str "2024-01-02") = str "2024-01-02" :=
  ⟨by rfl,
   ((c3_amended (str "Client: A.\nProject: B c\nDue Date: 2024-01-02")).2.2
     (str "2024-01-02") (by rfl)).2⟩

/-- The input of the C5 counterexample. -/
def t5Input : Str := str "Thanks for Abc\ndef"

/-- C5 (counterexample): the loose client pattern captures across a line
boundary — its character class includes whitespace, so the extracted
client value contains a newline and the match spans two lines. -/
theorem c5_cex :
    (simple_proposal_generator t5Input).client_name = some (str "Abc\ndef") ∧
    '\n' ∈ str "Abc\ndef" :=
  ⟨rfl, by decide⟩

/-- C5 (amended): project and due-date values never contain a newline
(their capture classes exclude it), but the loose client pattern's
capture class includes whitespace, so client values may contain newlines
and a whole match may span lines. -/
theorem c5_amended (text : Str) :
    (∀ v, (simple_proposal_generator text).project_name = some v →
      ∀ c ∈ v, c ≠ '\n') ∧
    (∀ v, (simple_proposal_generator text).due_date = some v →
      ∀ c ∈ v, c ≠ '\n') := by
  refine ⟨fun v hv => ?_, fun v hv => ?_⟩
  · exact projectOf_no_newline hv
  · exact dueOf_no_newline hv

/-- C5 (witness): the amended claim applied at a concrete input with the
project field present. -/
theorem c5_amended_witness :
    (simple_proposal_generator (str "Project: Alpha Beta")).project_name =
      some (str "Alpha Beta") ∧
    'A' ∈ str "Alpha Beta" ∧ 'A' ≠ '\n' :=
  ⟨by rfl, by decide,
   (c5_amended (str "Project: Alpha Beta")).1 (str "Alpha Beta") (by rfl)
     'A' (by decide)⟩

/-- C8: for every input the generator returns the six sections with the
fixed headings in order, and the last four sections are constants
independent of the input. -/
theorem c8_sections_fixed (text : Str) :
    (simple_proposal_generator text).sections.map Section.heading =
      [str "Executive Summary", str "Understanding of Requirements",
       str "Approach & Methodology", str "Project Team",
       str "Timeline", str "Pricing"] ∧
    (simple_proposal_generator text).sections.drop 2 =
      [⟨str "Approach & Methodology", approachContent⟩,
       ⟨str "Project Team", teamContent⟩,
       ⟨str "Timeline", timelineContent⟩,
       ⟨str "Pricing", pricingContent⟩] :=
  ⟨rfl, rfl⟩

/-- C9: when no client, project or due-date pattern matches, all three
fields are absent, the summary contains the literal phrase "requested
solution", the title is the first non-blank line truncated to 120
characters (or "Proposal" when there are no lines), and for empty line
lists the requirements section carries the static fallback sentence. -/
theorem c9_no_match (text : Str)
    (hc : firstMatch clientPats (joinedOf text) = none)
    (hp : firstMatch projPats (joinedOf text) = none)
    (hd : firstMatch duePats (joinedOf text) = none) :
    (simple_proposal_generator text).client_name = none ∧
    (simple_proposal_generator text).project_name = none ∧
    (simple_proposal_generator text).due_date = none ∧
    containsSub (str "requested solution")
      (simple_proposal_generator text).summary = true ∧
    (simple_proposal_generator text).title =
      (match linesOf text with
       | [] => str "Proposal"
       | l :: _ => l.take 120) ∧
    (linesOf text = [] →
      (simple_proposal_generator text).title = str "Proposal" ∧
      (simple_proposal_generator text).sections[1]? =
        some ⟨str "Understanding of Requirements", fallbackNeeds⟩) := by
  have hcl : clientOf text = none := by unfold clientOf; rw [hc]; rfl
  have hpr : projectOf text = none := by unfold projectOf; rw [hp]; rfl
  have hdu : dueOf text = none := by unfold dueOf; rw [hd]; rfl
  have htitle : (simple_proposal_generator text).title =
      (match linesOf text with
       | [] => str "Proposal"
       | l :: _ => l.take 120) := by
    show pyOr (projectOf text) (pyOr (titleCandOf text) (str "Proposal")) = _
    rw [hpr]
    show pyOr (titleCandOf text) (str "Proposal") = _
    cases hl : linesOf text with
    | nil =>
      have htc : titleCandOf text = none := by unfold titleCandOf; rw [hl]
      rw [htc]
      rfl
    | cons l rest =>
      have htc : titleCandOf text = some (l.take 120) := by
        unfold titleCandOf; rw [hl]
      rw [htc]
      show (if l.take 120 = [] then str "Proposal" else l.take 120) = l.take 120
      rw [if_neg]
      intro hnil
      rcases List.take_eq_nil_iff.mp hnil with h120 | hlnil
      · exact absurd h120 (by decide)
      · exact absurd hlnil (linesOf_head_ne_nil hl)
  refine ⟨hcl, hpr, hdu, ?_, htitle, ?_⟩
  · show containsSub (str "requested solution") (summaryOf text) = true
    unfold summaryOf
    rw [hcl, hpr]
    decide
  · intro hl
    constructor
    · rw [htitle, hl]
    · show (sectionsOf text)[1]? = _
      have hex : excerptOf text = [] := by
        unfold excerptOf
        rw [hl]
        rfl
      unfold sectionsOf
      rw [hex]
      rfl

/-- C9 (witness): the hypotheses and conclusion at the concrete
single-line input with no recognizable labels. -/
theorem c9_no_match_witness :
    firstMatch clientPats (joinedOf (str "Just some text")) = none ∧
    firstMatch projPats (joinedOf (str "Just some text")) = none ∧
    firstMatch duePats (joinedOf (str "Just some text")) = none ∧
    ((simple_proposal_generator (str "Just some text")).client_name = none ∧
     (simple_proposal_generator (str "Just some text")).title = str "Just some text") := by
  refine ⟨by rfl, by rfl, by rfl, ?_⟩
  have h := c9_no_match (str "Just some text") (by rfl) (by rfl) (by rfl)
  exact ⟨h.1, by rw [h.2.2.2.2.1]; rfl⟩

/-- C10: the returned title is non-empty and at most 120 characters;
present client, project and due-date values are bounded by their regex
capture lengths 80, 120 and 40; and a stripped match can leave a present
field equal to the empty string, as on the input "Client: --". -/
theorem c10_bounds (text : Str) :
    (simple_proposal_generator text).title ≠ [] ∧
    (simple_proposal_generator text).title.length ≤ 120 ∧
    (∀ v, (simple_proposal_generator text).client_name = some v → v.length ≤ 80) ∧
    (∀ v, (simple_proposal_generator text).project_name = some v → v.length ≤ 120) ∧
    (∀ v, (simple_proposal_generator text).due_date = some v → v.length ≤ 40) ∧
    (simple_proposal_generator (str "Client: --")).client_name = some [] := by
  have hinner : pyOr (titleCandOf text) (str "Proposal") ≠ [] ∧
      (pyOr (titleCandOf text) (str "Proposal")).length ≤ 120 := by
    cases htc : titleCandOf text with
    | none => exact ⟨by decide, by decide⟩
    | some tl =>
      by_cases htl : tl = []
      · show (if tl = [] then str "Proposal" else tl) ≠ [] ∧
          (if tl = [] then str "Proposal" else tl).length ≤ 120
        rw [if_pos htl]
        exact ⟨by decide, by decide⟩
      · show (if tl = [] then str "Proposal" else tl) ≠ [] ∧
          (if tl = [] then str "Proposal" else tl).length ≤ 120
        rw [if_neg htl]
        exact ⟨htl, titleCandOf_length htc⟩
  have htitle : pyOr (projectOf text) (pyOr (titleCandOf text) (str "Proposal")) ≠ [] ∧
      (pyOr (projectOf text) (pyOr (titleCandOf text) (str "Proposal"))).length ≤ 120 := by
    cases hpj : projectOf text with
    | none => exact hinner
    | some v =>
      show (if v = [] then pyOr (titleCandOf text) (str "Proposal") else v) ≠ [] ∧
        (if v = [] then pyOr (titleCandOf text) (str "Proposal") else v).length ≤ 120
      by_cases hv : v = []
      · rw [if_pos hv]
        exact hinner
      · rw [if_neg hv]
        exact ⟨hv, projectOf_length hpj⟩
  exact ⟨htitle.1, htitle.2,
    fun v hv => clientOf_length hv,
    fun v hv => projectOf_length hv,
    fun v hv => dueOf_length hv,
    by rfl⟩

/-- C10 (witness): the bounds applied at a concrete input with the
client field present. -/
theorem c10_bounds_witness :
    (simple_proposal_generator (str "Client: Bob")).client_name = some (str "Bob") ∧
    (str "Bob").length ≤ 80 :=
  ⟨by rfl, (c10_bounds (str "Client: Bob")).2.2.1 (str "Bob") (by rfl)⟩

/-! ### Claim theorems for the format decoder -/

/-- The PDF branch never lets an exception escape. -/
theorem pdfAttempt_ok (pdfCap : Option PdfCap) (mimetype name : Str) (data : Bytes) :
    ∃ o, pdfAttempt pdfCap mimetype name data = .ok o := by
  unfold pdfAttempt
  split
  · cases pdfCap with
    | none => exact ⟨none, rfl⟩
    | some cap =>
      dsimp only
      cases hr : cap.read data with
      | error e => exact ⟨none, rfl⟩
      | ok pages =>
        dsimp only
        by_cases hempty : (collectPages pages).isEmpty = true
        · rw [if_pos hempty]
          exact ⟨none, rfl⟩
        · rw [if_neg hempty]
          exact ⟨some (joinNL (collectPages pages)), rfl⟩
  · exact ⟨none, rfl⟩

/-- The word-processing branch never lets an exception escape. -/
theorem docxAttempt_ok (docxCap : Option DocxCap) (mimetype name : Str) (data : Bytes) :
    ∃ o, docxAttempt docxCap mimetype name data = .ok o := by
  unfold docxAttempt
  split
  · cases docxCap with
    | none => exact ⟨none, rfl⟩
    | some cap =>
      dsimp only
      cases hr : cap.paragraphs data with
      | error e => exact ⟨none, rfl⟩
      | ok ps => exact ⟨some (joinNL ps), rfl⟩
  · exact ⟨none, rfl⟩

/-- The steps after the PDF rule always produce a string. -/
theorem afterPdfSteps_ok (docxCap : Option DocxCap) (mimetype name : Str) (data : Bytes) :
    ∃ s, afterPdfSteps docxCap mimetype name data = .ok s := by
  unfold afterPdfSteps
  obtain ⟨o, ho⟩ := docxAttempt_ok docxCap mimetype name data
  rw [ho]
  cases o with
  | none => exact ⟨decodeReplace data, rfl⟩
  | some s => exact ⟨s, rfl⟩

/-- C1: for every capability state, declared media type, filename and
byte input, the decoder returns a string and no exception crosses its
boundary. -/
theorem c1_decoder_total (pdfCap : Option PdfCap) (docxCap : Option DocxCap)
    (contentType filename : Option Str) (data : Bytes) :
    ∃ s, extract_text_from_file pdfCap docxCap contentType filename data = .ok s := by
  unfold extract_text_from_file
  dsimp only
  split
  · exact ⟨decodeReplace data, rfl⟩
  · obtain ⟨o, ho⟩ := pdfAttempt_ok pdfCap (mimeOf contentType) (nameOf filename) data
    rw [ho]
    cases o with
    | some s => exact ⟨s, rfl⟩
    | none => exact afterPdfSteps_ok docxCap (mimeOf contentType) (nameOf filename) data

/-- The page loop keeps exactly the non-raising pages, in order. -/
theorem collectPages_filterMap (pages : List (Except PyErr (Option Str))) :
    collectPages pages = pages.filterMap
      (fun p => match p with | .error _ => none | .ok o => some (o.getD [])) := by
  induction pages with
  | nil => rfl
  | cons p rest ih =>
    cases p with
    | error e => simp [collectPages, List.filterMap_cons, ih]
    | ok o => simp [collectPages, List.filterMap_cons, ih]

/-- The PDF branch under a successful read reduces to the emptiness test
of the collected page list. -/
theorem pdfAttempt_read_ok {cap : PdfCap} {mimetype name : Str} {data : Bytes}
    {pages : List (Except PyErr (Option Str))}
    (hdisp : pdfCond mimetype name = true) (hread : cap.read data = .ok pages) :
    pdfAttempt (some cap) mimetype name data =
      (if (collectPages pages).isEmpty then Except.ok none
       else Except.ok (some (joinNL (collectPages pages)))) := by
  have hcond : (pdfCond mimetype name && (some cap).isSome) = true := by
    rw [hdisp]
    rfl
  unfold pdfAttempt
  rw [if_pos hcond]
  dsimp only
  rw [hread]
  dsimp only
  cases hb : (collectPages pages).isEmpty with
  | false => simp [hb, pyTry]
  | true => simp [hb, pyTry]

/-- The PDF attempt with the capability absent yields no output. -/
theorem pdfAttempt_absent (mimetype name : Str) (data : Bytes) :
    pdfAttempt none mimetype name data = .ok none := by
  unfold pdfAttempt
  simp

/-- The input data of the C4 counterexample ("hello"). -/
def c4Data : Bytes := [104, 101, 108, 108, 111]

/-- The one-page capability of the C4 counterexample: parsing succeeds
and the single page yields no text. -/
def c4Cap : PdfCap := ⟨fun _ => .ok [.ok none]⟩

/-- C4 (counterexample): when parsing succeeds but the only page yields
no text, the decoder returns the empty joined result instead of falling
through — the source tests list emptiness, and a page with empty text
still populates the list. -/
theorem c4_cex :
    extract_text_from_file (some c4Cap) none (some (str "application/pdf"))
      (some (str "a.pdf")) c4Data = .ok [] ∧
    decodeReplace c4Data = str "hello" ∧
    (str "hello" : Str) ≠ [] :=
  ⟨rfl, rfl, by decide⟩

/-- C4 (amended): under the PDF rule with a successful read, the decoder
falls through only when the collected page list is empty (no pages, or
every page raising); pages that fail to parse are skipped while the
pages that succeeded are kept in order and joined with newlines, a page
yielding no text contributing an empty string — so an all-empty join is
returned, not skipped. -/
theorem c4_amended (cap : PdfCap) (docxCap : Option DocxCap) (ct fn : Option Str)
    (data : Bytes) (pages : List (Except PyErr (Option Str)))
    (htext : textCond (mimeOf ct) (nameOf fn) = false)
    (hdisp : pdfCond (mimeOf ct) (nameOf fn) = true)
    (hread : cap.read data = .ok pages) :
    (collectPages pages ≠ [] →
      extract_text_from_file (some cap) docxCap ct fn data =
        .ok (joinNL (collectPages pages))) ∧
    (collectPages pages = [] →
      extract_text_from_file (some cap) docxCap ct fn data =
        afterPdfSteps docxCap (mimeOf ct) (nameOf fn) data) ∧
    collectPages pages = pages.filterMap
      (fun p => match p with | .error _ => none | .ok o => some (o.getD [])) := by
  have hbase : extract_text_from_file (some cap) docxCap ct fn data =
      match pdfAttempt (some cap) (mimeOf ct) (nameOf fn) data with
      | .error e => .error e
      | .ok (some s) => .ok s
      | .ok none => afterPdfSteps docxCap (mimeOf ct) (nameOf fn) data := by
    unfold extract_text_from_file
    dsimp only
    rw [htext]
    simp
  have hpdf : pdfAttempt (some cap) (mimeOf ct) (nameOf fn) data =
      (if (collectPages pages).isEmpty then Except.ok none
       else Except.ok (some (joinNL (collectPages pages)))) :=
    pdfAttempt_read_ok hdisp hread
  refine ⟨fun hne => ?_, fun heq => ?_, collectPages_filterMap pages⟩
  · have hempty : (collectPages pages).isEmpty = false := by
      cases hcp : collectPages pages with
      | nil => exact absurd hcp hne
      | cons a l => rfl
    rw [hbase, hpdf, hempty]
    rfl
  · have hempty : (collectPages pages).isEmpty = true := by rw [heq]; rfl
    rw [hbase, hpdf, hempty]
    rfl

/-- The two-page capability of the C4 witness: one page succeeds, one
raises. -/
def c4wCap : PdfCap := ⟨fun _ => .ok [.ok (some (str "pg")), .error .exn]⟩

/-- C4 (witness): the amended claim applied at a concrete capability
whose second page raises; the surviving page is returned. -/
theorem c4_amended_witness :
    textCond (mimeOf (some (str "application/pdf"))) (nameOf none) = false ∧
    pdfCond (mimeOf (some (str "application/pdf"))) (nameOf none) = true ∧
    c4wCap.read [1, 2] = .ok [.ok (some (str "pg")), .error .exn] ∧
    extract_text_from_file (some c4wCap) none (some (str "application/pdf")) none [1, 2] =
      .ok (str "pg") := by
  refine ⟨by rfl, by rfl, by rfl, ?_⟩
  exact (c4_amended c4wCap none (some (str "application/pdf")) none [1, 2]
    [.ok (some (str "pg")), .error .exn] (by rfl) (by rfl) (by rfl)).1 (by decide)

/-- The word-processing capability of the C6 counterexample. -/
def c6Docx : DocxCap := ⟨fun _ => .ok [str "hi"]⟩

/-- C6 (counterexample): a PDF media type with the PDF capability absent
does not always fall back to the lossy decode — a filename with the
OOXML extension dispatches to an available word-processing parser
instead. -/
theorem c6_cex :
    extract_text_from_file none (some c6Docx) (some (str "application/pdf"))
      (some (str "x.docx")) [120, 121, 122] = .ok (str "hi") ∧
    decodeReplace [120, 121, 122] = str "xyz" ∧
    str "hi" ≠ str "xyz" :=
  ⟨rfl, rfl, by decide⟩

/-- C6 (amended): for a PDF media type with the PDF capability absent,
the decoder returns the raw bytes decoded as UTF-8 with lossy
replacement and does not raise, provided the word-processing rule
produces no output (for instance when the filename does not carry the
OOXML extension or that parser is absent or fails). -/
theorem c6_amended (docxCap : Option DocxCap) (fn : Option Str) (data : Bytes)
    (hdocx : docxAttempt docxCap (str "application/pdf") (nameOf fn) data = .ok none) :
    extract_text_from_file none docxCap (some (str "application/pdf")) fn data =
      .ok (decodeReplace data) := by
  unfold extract_text_from_file
  cases ht : textCond (mimeOf (some (str "application/pdf"))) (nameOf fn) with
  | true => simp [ht]
  | false =>
    simp only [ht, Bool.false_eq_true, if_false]
    rw [pdfAttempt_absent]
    dsimp only
    unfold afterPdfSteps
    rw [show mimeOf (some (str "application/pdf")) = str "application/pdf" from rfl, hdocx]

/-- C6 (witness): the amended claim at a concrete input with no
word-processing capability. -/
theorem c6_amended_witness :
    docxAttempt none (str "application/pdf") (nameOf none) [104, 105] = .ok none ∧
    extract_text_from_file none none (some (str "application/pdf")) none [104, 105] =
      .ok (decodeReplace [104, 105]) :=
  ⟨by rfl, c6_amended none none [104, 105] (by rfl)⟩

/-- The word-processing capability of the C7 counterexample. -/
def c7Docx : DocxCap := ⟨fun _ => .ok [str "hi"]⟩

/-- C7 (counterexample): the extension dispatch does not cover the
legacy word-processing extension: a ".doc" filename with the parser
available and succeeding still takes the fallback decode. -/
theorem c7_cex :
    extract_text_from_file none (some c7Docx) none (some (str "x.doc"))
      [120, 121, 122] = .ok (str "xyz") ∧
    joinNL [str "hi"] = str "hi" ∧
    str "xyz" ≠ str "hi" :=
  ⟨rfl, rfl, by decide⟩

/-- C7 (amended): the word-processing rule dispatches on the two media
types or the OOXML extension only (the legacy ".doc" extension is not
dispatched); when it fires with the parser available, a successful parse
returns all paragraph texts joined with newlines, and a parser failure
falls through to the fallback decode. -/
theorem c7_amended (cap : DocxCap) (pdfCap : Option PdfCap) (ct fn : Option Str)
    (data : Bytes)
    (htext : textCond (mimeOf ct) (nameOf fn) = false)
    (hpdf : pdfAttempt pdfCap (mimeOf ct) (nameOf fn) data = .ok none)
    (hcond : docxCond (mimeOf ct) (nameOf fn) = true) :
    (∀ ps, cap.paragraphs data = .ok ps →
      extract_text_from_file pdfCap (some cap) ct fn data = .ok (joinNL ps)) ∧
    (∀ e, cap.paragraphs data = .error e →
      extract_text_from_file pdfCap (some cap) ct fn data = .ok (decodeReplace data)) := by
  have hbase : extract_text_from_file pdfCap (some cap) ct fn data =
      afterPdfSteps (some cap) (mimeOf ct) (nameOf fn) data := by
    unfold extract_text_from_file
    dsimp only
    rw [htext]
    simp only [Bool.false_eq_true, if_false]
    rw [hpdf]
  have hdx : docxAttempt (some cap) (mimeOf ct) (nameOf fn) data =
      pyTry
        (match cap.paragraphs data with
         | .error e => .error e
         | .ok ps => .ok (some (joinNL ps)))
        (fun _ => .ok none) := by
    unfold docxAttempt
    rw [hcond]
    simp only [Option.isSome_some, Bool.and_true, if_true]
  constructor
  · intro ps hps
    rw [hbase]
    unfold afterPdfSteps
    rw [hdx, hps]
    rfl
  · intro e he
    rw [hbase]
    unfold afterPdfSteps
    rw [hdx, he]
    rfl

/-- The word-processing capability of the C7 witness. -/
def c7wDocx : DocxCap := ⟨fun _ => .ok [str "a", str "b"]⟩

/-- C7 (witness): the amended claim at the legacy media type with a
succeeding parser; the paragraphs come back joined with a newline. -/
theorem c7_amended_witness :
    textCond (mimeOf (some (str "application/msword"))) (nameOf none) = false ∧
    pdfAttempt none (mimeOf (some (str "application/msword"))) (nameOf none) [1] = .ok none ∧
    docxCond (mimeOf (some (str "application/msword"))) (nameOf none) = true ∧
    c7wDocx.paragraphs [1] = .ok [str "a", str "b"] ∧
    extract_text_from_file none (some c7wDocx) (some (str "application/msword")) none [1] =
      .ok (joinNL [str "a", str "b"]) := by
  refine ⟨by rfl, by rfl, by rfl, by rfl, ?_⟩
  exact (c7_amended c7wDocx none (some (str "application/msword")) none [1]
    (by rfl) (by rfl) (by rfl)).1 [str "a", str "b"] (by rfl)

end RfpCore
